import Mathlib

/-
  Verification of the payoff engine of the payoff-builder repository
  (src/app.py): leg payoff formulas, strategy aggregation, the price
  sweep, and the summary metrics (max profit / max loss / breakevens).

  Numbers are modelled as rationals (the source computes with floats;
  all the relevant arithmetic is exact affine arithmetic).  Instrument
  and position are the literal strings the source stores in each leg
  dictionary ("Call Option", "Put Option", "Future"; "Buy (Long)",
  "Sell (Short)").  A missing strike/premium (Python `None`) is
  `Option.none`; arithmetic on a missing field, which in Python raises
  a TypeError, is modelled by `leg_pnl` returning `none`.
-/

namespace PayoffBuilder

/-- A strategy leg, mirroring the dictionary built at src/app.py lines 62-68:
keys Instrument, Position, Strike, Premium, Lot.  Strike and Premium are
`None` for futures, hence `Option ℚ`. -/
structure Leg where
  instr : String
  pos : String
  strike : Option ℚ
  premium : Option ℚ
  lot : ℤ
deriving DecidableEq

/-- src/app.py lines 78-83: `call_payoff(price, strike, premium, lot, position)`. -/
def call_payoff (price strike premium : ℚ) (lot : ℤ) (position : String) : ℚ :=
  let intrinsic := max (price - strike) 0
  let payoff := intrinsic - premium
  let payoff2 := if position = "Sell (Short)" then -payoff else payoff
  payoff2 * (lot : ℚ)

/-- src/app.py lines 86-91: `put_payoff(price, strike, premium, lot, position)`. -/
def put_payoff (price strike premium : ℚ) (lot : ℤ) (position : String) : ℚ :=
  let intrinsic := max (strike - price) 0
  let payoff := intrinsic - premium
  let payoff2 := if position = "Sell (Short)" then -payoff else payoff
  payoff2 * (lot : ℚ)

/-- src/app.py lines 94-98: `future_payoff(price, spot, lot, position)`. -/
def future_payoff (price spot : ℚ) (lot : ℤ) (position : String) : ℚ :=
  let payoff := price - spot
  let payoff2 := if position = "Sell (Short)" then -payoff else payoff
  payoff2 * (lot : ℚ)

/-- src/app.py lines 101-107: `leg_pnl(price, leg)`.  Dispatches on the
instrument string; anything that is not "Call Option" or "Put Option" falls
into the `else` branch and is priced as a future against the module-level
`spot_price` (passed here explicitly).  For an option leg whose strike or
premium is `None`, the Python arithmetic raises; this is the `none` result. -/
def leg_pnl (price : ℚ) (leg : Leg) (spot_price : ℚ) : Option ℚ :=
  if leg.instr = "Call Option" then
    match leg.strike, leg.premium with
    | some s, some p => some (call_payoff price s p leg.lot leg.pos)
    | _, _ => none
  else if leg.instr = "Put Option" then
    match leg.strike, leg.premium with
    | some s, some p => some (put_payoff price s p leg.lot leg.pos)
    | _, _ => none
  else
    some (future_payoff price spot_price leg.lot leg.pos)

/-- src/app.py lines 177-180: `total_pnl` starts at zero and accumulates
`leg_pnl` over the legs.  A failing leg evaluation (missing option field)
propagates as `none`. -/
def total_pnl (price : ℚ) (legs : List Leg) (spot_price : ℚ) : Option ℚ :=
  legs.foldl
    (fun acc leg => acc.bind (fun a => (leg_pnl price leg spot_price).map (fun p => a + p)))
    (some 0)

/-- `np.linspace start stop num` with the default `endpoint=True`:
`num` evenly spaced samples; for `num = 1` numpy returns `[start]`, and for
`num ≥ 2` the i-th sample is `start + i * (stop - start) / (num - 1)`. -/
def linspace (start stop : ℚ) (num : ℕ) : List ℚ :=
  if num = 1 then [start]
  else (List.range num).map
    (fun i : ℕ => start + (i : ℚ) * (stop - start) / ((num : ℚ) - 1))

/-- src/app.py line 176: `price_range = np.linspace(spot_price * 0.5, spot_price * 1.5, 300)`. -/
def price_range (spot_price : ℚ) : List ℚ :=
  linspace (spot_price * (1 / 2)) (spot_price * (3 / 2)) 300

/-- The spec's `computeCurve(strategy, marketSpot, lowFactor, highFactor, samples)`.
src/app.py line 176 instantiates it at the defaults lowFactor=0.5,
highFactor=1.5, samples=300 (`price_range` above); the parameters themselves
exist only in the spec, so the general form is modelled from the spec with
numpy's linspace semantics. -/
def computeCurve (legs : List Leg) (spot lowFactor highFactor : ℚ) (samples : ℕ) :
    List ℚ × List (Option ℚ) :=
  let prices := linspace (spot * lowFactor) (spot * highFactor) samples
  (prices, prices.map (fun p => total_pnl p legs spot))

/-- `np.isclose(a, b, rtol, atol)` on scalars: `|a - b| ≤ atol + rtol * |b|`.
The source calls it with `b = 0`, `atol = 5` and the default `rtol = 1e-05`,
which degenerates to `|a| ≤ atol`. -/
def np_isclose (a b rtol atol : ℚ) : Bool :=
  decide (|a - b| ≤ atol + rtol * |b|)

/-- src/app.py line 209: `breakevens = price_range[np.isclose(total_pnl, 0, atol=5)]` —
boolean-mask indexing keeps, in order, the prices whose pnl is within the band. -/
def breakevens (prices pnls : List ℚ) (atol : ℚ) : List ℚ :=
  (prices.zip pnls).filterMap
    (fun pp => if np_isclose pp.2 0 (1 / 100000) atol then some pp.1 else none)

/-- Python's `round` ties-to-even, on an exact rational. -/
def round_half_even (x : ℚ) : ℤ :=
  if x - ⌊x⌋ < 1 / 2 then ⌊x⌋
  else if x - ⌊x⌋ > 1 / 2 then ⌊x⌋ + 1
  else if ⌊x⌋ % 2 = 0 then ⌊x⌋ else ⌊x⌋ + 1

/-- Python's `round(x, 2)`, as used at src/app.py lines 206-207. -/
def round2 (x : ℚ) : ℚ :=
  (round_half_even (x * 100) : ℚ) / 100

/-- `np.max` over a list; raises on an empty array, hence `none` there. -/
def np_max (l : List ℚ) : Option ℚ :=
  match l with
  | [] => none
  | x :: xs => some (xs.foldl max x)

/-- `np.min` over a list; raises on an empty array, hence `none` there. -/
def np_min (l : List ℚ) : Option ℚ :=
  match l with
  | [] => none
  | x :: xs => some (xs.foldl min x)

/-- The summary block of src/app.py lines 206-216: rounded max/min of the pnl
curve and the breakeven band (the `[:4]` truncation at line 216 is display
only and is not part of the returned list). -/
structure Metrics where
  maxProfit : Option ℚ
  maxLoss : Option ℚ
  breakevenList : List ℚ
deriving DecidableEq

/-- The spec's `summaryMetrics(prices, pnls, tolerance=5)`, as computed at
src/app.py lines 206-216. -/
def summaryMetrics (prices pnls : List ℚ) (atol : ℚ) : Metrics :=
  { maxProfit := (np_max pnls).map round2
    maxLoss := (np_min pnls).map round2
    breakevenList := breakevens prices pnls atol }

/-- The Leg invariants of the spec (§3): instrument is one of the three
recognized strings, options carry strike and premium, lot size at least 1. -/
def ValidLeg (leg : Leg) : Prop :=
  (leg.instr = "Call Option" ∨ leg.instr = "Put Option" ∨ leg.instr = "Future") ∧
  (leg.instr ≠ "Future" → leg.strike.isSome ∧ leg.premium.isSome) ∧
  1 ≤ leg.lot

instance (leg : Leg) : Decidable (ValidLeg leg) := by
  unfold ValidLeg
  infer_instance

end PayoffBuilder

namespace PayoffBuilder

/-- C1: for a valid Call leg, `leg_pnl` is `(max (price - strike) 0 - premium) * lot`
for a long position and its negation for a short position; in particular a long
Call with strike 100, premium 5, lot 1 yields -5 at price 100, 5 at 110, -5 at 90. -/
theorem claim_C1 (price strike premium spot : ℚ) (lot : ℤ) (hlot : 1 ≤ lot) :
    leg_pnl price ⟨"Call Option", "Buy (Long)", some strike, some premium, lot⟩ spot
      = some ((max (price - strike) 0 - premium) * (lot : ℚ)) ∧
    leg_pnl price ⟨"Call Option", "Sell (Short)", some strike, some premium, lot⟩ spot
      = some (-((max (price - strike) 0 - premium) * (lot : ℚ))) ∧
    leg_pnl 100 ⟨"Call Option", "Buy (Long)", some 100, some 5, 1⟩ spot = some (-5) ∧
    leg_pnl 110 ⟨"Call Option", "Buy (Long)", some 100, some 5, 1⟩ spot = some 5 ∧
    leg_pnl 90 ⟨"Call Option", "Buy (Long)", some 100, some 5, 1⟩ spot = some (-5) := by
  have hBL : ("Buy (Long)" : String) ≠ "Sell (Short)" := by decide
  refine ⟨?_, ?_, ?_, ?_, ?_⟩
  · simp [leg_pnl, call_payoff, hBL]
  · simp only [leg_pnl, call_payoff]
    norm_num
    ring
  · norm_num [leg_pnl, call_payoff, hBL]
  · norm_num [leg_pnl, call_payoff, hBL]
  · norm_num [leg_pnl, call_payoff, hBL]

/-- Witness for C1 at lot = 1 (discharging `1 ≤ lot`). -/
theorem claim_C1_witness :
    (1 : ℤ) ≤ 1 ∧
    (leg_pnl 110 ⟨"Call Option", "Buy (Long)", some 100, some 5, 1⟩ 100
      = some ((max ((110 : ℚ) - 100) 0 - 5) * ((1 : ℤ) : ℚ)) ∧
    leg_pnl 110 ⟨"Call Option", "Sell (Short)", some 100, some 5, 1⟩ 100
      = some (-((max ((110 : ℚ) - 100) 0 - 5) * ((1 : ℤ) : ℚ))) ∧
    leg_pnl 100 ⟨"Call Option", "Buy (Long)", some 100, some 5, 1⟩ 100 = some (-5) ∧
    leg_pnl 110 ⟨"Call Option", "Buy (Long)", some 100, some 5, 1⟩ 100 = some 5 ∧
    leg_pnl 90 ⟨"Call Option", "Buy (Long)", some 100, some 5, 1⟩ 100 = some (-5)) :=
  ⟨le_refl 1, claim_C1 110 100 5 100 1 (le_refl 1)⟩

/-- C2: for a valid Put leg, `leg_pnl` is `(max (strike - price) 0 - premium) * lot`
for a long position and its negation for a short position; in particular a short
Put with strike 100, premium 5, lot 1 yields 5 at price 100 and -15 at price 80. -/
theorem claim_C2 (price strike premium spot : ℚ) (lot : ℤ) (hlot : 1 ≤ lot) :
    leg_pnl price ⟨"Put Option", "Buy (Long)", some strike, some premium, lot⟩ spot
      = some ((max (strike - price) 0 - premium) * (lot : ℚ)) ∧
    leg_pnl price ⟨"Put Option", "Sell (Short)", some strike, some premium, lot⟩ spot
      = some (-((max (strike - price) 0 - premium) * (lot : ℚ))) ∧
    leg_pnl 100 ⟨"Put Option", "Sell (Short)", some 100, some 5, 1⟩ spot = some 5 ∧
    leg_pnl 80 ⟨"Put Option", "Sell (Short)", some 100, some 5, 1⟩ spot = some (-15) := by
  have hBL : ("Buy (Long)" : String) ≠ "Sell (Short)" := by decide
  have hPC : ("Put Option" : String) ≠ "Call Option" := by decide
  refine ⟨?_, ?_, ?_, ?_⟩
  · simp [leg_pnl, put_payoff, hPC, hBL]
  · simp only [leg_pnl, put_payoff]
    norm_num [hPC]
    ring
  · norm_num [leg_pnl, put_payoff, hPC]
  · norm_num [leg_pnl, put_payoff, hPC]

/-- Witness for C2 at lot = 1 (discharging `1 ≤ lot`). -/
theorem claim_C2_witness :
    (1 : ℤ) ≤ 1 ∧
    (leg_pnl 80 ⟨"Put Option", "Buy (Long)", some 100, some 5, 1⟩ 100
      = some ((max ((100 : ℚ) - 80) 0 - 5) * ((1 : ℤ) : ℚ)) ∧
    leg_pnl 80 ⟨"Put Option", "Sell (Short)", some 100, some 5, 1⟩ 100
      = some (-((max ((100 : ℚ) - 80) 0 - 5) * ((1 : ℤ) : ℚ))) ∧
    leg_pnl 100 ⟨"Put Option", "Sell (Short)", some 100, some 5, 1⟩ 100 = some 5 ∧
    leg_pnl 80 ⟨"Put Option", "Sell (Short)", some 100, some 5, 1⟩ 100 = some (-15)) :=
  ⟨le_refl 1, claim_C2 80 100 5 100 1 (le_refl 1)⟩

/-- C3: for a Future leg (any strike/premium fields, which are ignored),
`leg_pnl` is `(price - marketSpot) * lot` for a long position and
`(marketSpot - price) * lot` for a short position; in particular a long Future
with lot 2 against marketSpot 100 yields 20 at price 110 and -20 at price 90. -/
theorem claim_C3 (price spot : ℚ) (lot : ℤ) (st pr : Option ℚ) (hlot : 1 ≤ lot) :
    leg_pnl price ⟨"Future", "Buy (Long)", st, pr, lot⟩ spot
      = some ((price - spot) * (lot : ℚ)) ∧
    leg_pnl price ⟨"Future", "Sell (Short)", st, pr, lot⟩ spot
      = some ((spot - price) * (lot : ℚ)) ∧
    leg_pnl 110 ⟨"Future", "Buy (Long)", none, none, 2⟩ 100 = some 20 ∧
    leg_pnl 90 ⟨"Future", "Buy (Long)", none, none, 2⟩ 100 = some (-20) := by
  have hBL : ("Buy (Long)" : String) ≠ "Sell (Short)" := by decide
  have hFC : ("Future" : String) ≠ "Call Option" := by decide
  have hFP : ("Future" : String) ≠ "Put Option" := by decide
  refine ⟨?_, ?_, ?_, ?_⟩
  · simp [leg_pnl, future_payoff, hFC, hFP, hBL]
  · simp only [leg_pnl, future_payoff]
    norm_num [hFC, hFP]
  · norm_num [leg_pnl, future_payoff, hFC, hFP, hBL]
  · norm_num [leg_pnl, future_payoff, hFC, hFP, hBL]

/-- Witness for C3 at lot = 2 (discharging `1 ≤ lot`). -/
theorem claim_C3_witness :
    (1 : ℤ) ≤ 2 ∧
    (leg_pnl 110 ⟨"Future", "Buy (Long)", none, none, 2⟩ 100
      = some (((110 : ℚ) - 100) * ((2 : ℤ) : ℚ)) ∧
    leg_pnl 110 ⟨"Future", "Sell (Short)", none, none, 2⟩ 100
      = some (((100 : ℚ) - 110) * ((2 : ℤ) : ℚ)) ∧
    leg_pnl 110 ⟨"Future", "Buy (Long)", none, none, 2⟩ 100 = some 20 ∧
    leg_pnl 90 ⟨"Future", "Buy (Long)", none, none, 2⟩ 100 = some (-20)) :=
  ⟨by norm_num, claim_C3 110 100 2 none none (by norm_num)⟩

end PayoffBuilder

namespace PayoffBuilder

/-- Accumulating fold of `total_pnl`, for an everywhere-defined per-leg pnl:
starting the fold at `some a` yields `a` plus the sum of the per-leg values. -/
theorem foldl_bind_some (g : Leg → Option ℚ) :
    ∀ (legs : List Leg) (a : ℚ), (∀ l ∈ legs, (g l).isSome) →
      legs.foldl (fun acc leg => acc.bind (fun x => (g leg).map (fun p => x + p))) (some a)
        = some (a + (legs.filterMap g).sum) := by
  intro legs
  induction legs with
  | nil => intro a _; simp
  | cons l ls ih =>
    intro a h
    obtain ⟨v, hv⟩ := Option.isSome_iff_exists.mp (h l (List.mem_cons_self l ls))
    have hrest : ∀ x ∈ ls, (g x).isSome := fun x hx => h x (List.mem_cons_of_mem l hx)
    simp only [List.foldl_cons, hv, Option.bind_eq_bind, Option.some_bind,
      List.filterMap_cons]
    rw [show Option.map (fun p => a + p) (some v) = some (a + v) from rfl, ih (a + v) hrest]
    simp only [List.sum_cons, Option.some.injEq]
    ring

end PayoffBuilder

namespace PayoffBuilder

/-- C7: two legs identical except for position (one "Buy (Long)", one
"Sell (Short)") have opposite payoffs, for every instrument (and even for
malformed option legs, where both sides fail alike). -/
theorem claim_C7 (price spot : ℚ) (leg : Leg) :
    leg_pnl price ⟨leg.instr, "Buy (Long)", leg.strike, leg.premium, leg.lot⟩ spot
      = Option.map (fun x => -x)
          (leg_pnl price ⟨leg.instr, "Sell (Short)", leg.strike, leg.premium, leg.lot⟩ spot) := by
  have hBL : ("Buy (Long)" : String) ≠ "Sell (Short)" := by decide
  by_cases hc : leg.instr = "Call Option"
  · rcases hs : leg.strike with _ | s <;> rcases hp : leg.premium with _ | p <;>
      simp [leg_pnl, hc, call_payoff, hBL] <;> ring
  · by_cases hq : leg.instr = "Put Option"
    · rcases hs : leg.strike with _ | s <;> rcases hp : leg.premium with _ | p <;>
        simp [leg_pnl, hc, hq, put_payoff, hBL] <;> ring
    · simp [leg_pnl, hc, hq, future_payoff, hBL]
      ring

/-- C10: a leg whose instrument is neither "Call Option" nor "Put Option"
(whatever else the string is) falls through to the future branch: its pnl is
`price - marketSpot` sign-adjusted and lot-scaled, with strike and premium
ignored and no error raised. -/
theorem claim_C10 (price spot : ℚ) (leg : Leg)
    (h1 : leg.instr ≠ "Call Option") (h2 : leg.instr ≠ "Put Option") :
    leg_pnl price leg spot = some (future_payoff price spot leg.lot leg.pos) ∧
    leg_pnl price leg spot =
      some ((if leg.pos = "Sell (Short)" then spot - price else price - spot) * (leg.lot : ℚ)) := by
  constructor
  · simp [leg_pnl, h1, h2]
  · by_cases hp : leg.pos = "Sell (Short)" <;> simp [leg_pnl, h1, h2, future_payoff, hp] <;> ring

/-- Witness for C10: an instrument string outside the enum ("Banana"), with
strike and premium set, is priced as a future. -/
theorem claim_C10_witness :
    (("Banana" : String) ≠ "Call Option") ∧ (("Banana" : String) ≠ "Put Option") ∧
    (leg_pnl 5 ⟨"Banana", "Buy (Long)", some 1, some 2, 3⟩ 4
        = some (future_payoff 5 4 3 "Buy (Long)") ∧
      leg_pnl 5 ⟨"Banana", "Buy (Long)", some 1, some 2, 3⟩ 4
        = some ((if ("Buy (Long)" : String) = "Sell (Short)" then (4 : ℚ) - 5 else 5 - 4)
            * ((3 : ℤ) : ℚ))) :=
  ⟨by decide, by decide,
    claim_C10 5 4 ⟨"Banana", "Buy (Long)", some 1, some 2, 3⟩ (by decide) (by decide)⟩

/-- C4: the strategy payoff is the sum of the leg payoffs (whenever every leg
evaluates, in particular for valid legs); the empty strategy pays zero
everywhere, and a two-leg strategy pays the sum of its two legs. -/
theorem claim_C4 (price spot : ℚ) (legs : List Leg) (A B : Leg) (a b : ℚ)
    (h : ∀ l ∈ legs, (leg_pnl price l spot).isSome)
    (ha : leg_pnl price A spot = some a) (hb : leg_pnl price B spot = some b) :
    total_pnl price legs spot
        = some ((legs.filterMap (fun l => leg_pnl price l spot)).sum) ∧
    total_pnl price [] spot = some 0 ∧
    total_pnl price [A, B] spot = some (a + b) := by
  refine ⟨?_, rfl, ?_⟩
  · have := foldl_bind_some (fun l => leg_pnl price l spot) legs 0 h
    simpa [total_pnl] using this
  · simp [total_pnl, ha, hb]

/-- Witness for C4 on a one-leg strategy of a long future (price 3, spot 1). -/
theorem claim_C4_witness :
    (∀ l ∈ [(⟨"Future", "Buy (Long)", none, none, 1⟩ : Leg)], (leg_pnl 3 l 1).isSome) ∧
    leg_pnl 3 (⟨"Future", "Buy (Long)", none, none, 1⟩ : Leg) 1 = some 2 ∧
    (total_pnl 3 [(⟨"Future", "Buy (Long)", none, none, 1⟩ : Leg)] 1
        = some (([(⟨"Future", "Buy (Long)", none, none, 1⟩ : Leg)].filterMap
            (fun l => leg_pnl 3 l 1)).sum) ∧
      total_pnl 3 [] 1 = some 0 ∧
      total_pnl 3 [(⟨"Future", "Buy (Long)", none, none, 1⟩ : Leg),
        (⟨"Future", "Buy (Long)", none, none, 1⟩ : Leg)] 1 = some (2 + 2)) :=
  have hpnl : leg_pnl 3 (⟨"Future", "Buy (Long)", none, none, 1⟩ : Leg) 1 = some 2 := by
    simp [leg_pnl, future_payoff, show ("Future" : String) ≠ "Call Option" from by decide,
      show ("Future" : String) ≠ "Put Option" from by decide,
      show ("Buy (Long)" : String) ≠ "Sell (Short)" from by decide]
    norm_num
  have hsome : ∀ l ∈ [(⟨"Future", "Buy (Long)", none, none, 1⟩ : Leg)],
      (leg_pnl 3 l 1).isSome := by
    intro l hl
    simp only [List.mem_singleton] at hl
    rw [hl, hpnl]
    rfl
  ⟨hsome, hpnl,
    claim_C4 3 1 [⟨"Future", "Buy (Long)", none, none, 1⟩]
      ⟨"Future", "Buy (Long)", none, none, 1⟩ ⟨"Future", "Buy (Long)", none, none, 1⟩
      2 2 hsome hpnl hpnl⟩

end PayoffBuilder

namespace PayoffBuilder

/-- A valid leg (per the spec's Leg invariants) always evaluates: no error
branch of `leg_pnl` is reachable. -/
theorem leg_pnl_isSome_of_valid (price spot : ℚ) (leg : Leg) (h : ValidLeg leg) :
    (leg_pnl price leg spot).isSome := by
  obtain ⟨hinstr, hopt, hlot⟩ := h
  rcases hinstr with hc | hp | hf
  · have hne : leg.instr ≠ "Future" := by rw [hc]; decide
    obtain ⟨hs, hpm⟩ := hopt hne
    obtain ⟨s, hs2⟩ := Option.isSome_iff_exists.mp hs
    obtain ⟨p, hp2⟩ := Option.isSome_iff_exists.mp hpm
    simp [leg_pnl, hc, hs2, hp2]
  · have hne : leg.instr ≠ "Future" := by rw [hp]; decide
    obtain ⟨hs, hpm⟩ := hopt hne
    obtain ⟨s, hs2⟩ := Option.isSome_iff_exists.mp hs
    obtain ⟨p, hp2⟩ := Option.isSome_iff_exists.mp hpm
    simp [leg_pnl, hp, hs2, hp2, show ("Put Option" : String) ≠ "Call Option" from by decide]
  · simp [leg_pnl, hf, show ("Future" : String) ≠ "Call Option" from by decide,
      show ("Future" : String) ≠ "Put Option" from by decide]

/-- A strategy of valid legs always evaluates. -/
theorem total_pnl_isSome_of_valid (price spot : ℚ) (legs : List Leg)
    (h : ∀ l ∈ legs, ValidLeg l) : (total_pnl price legs spot).isSome := by
  have hs : ∀ l ∈ legs, (leg_pnl price l spot).isSome :=
    fun l hl => leg_pnl_isSome_of_valid price spot l (h l hl)
  have := foldl_bind_some (fun l => leg_pnl price l spot) legs 0 hs
  have h2 : total_pnl price legs spot
      = some (0 + (legs.filterMap (fun l => leg_pnl price l spot)).sum) := by
    simpa [total_pnl] using this
  rw [h2]
  rfl

end PayoffBuilder

namespace PayoffBuilder

/-- C9: under the spec's preconditions (valid legs, non-empty pnl curve) every
engine operation is total: `leg_pnl` and `total_pnl` return a value, every
point of the computed curve is defined, and the summary max/min are defined.
No error branch is reachable. -/
theorem claim_C9 (price spot lowF highF atol : ℚ) (n : ℕ) (leg : Leg) (legs : List Leg)
    (prices pnls : List ℚ)
    (h1 : ValidLeg leg) (h2 : ∀ l ∈ legs, ValidLeg l) (h3 : pnls ≠ []) :
    (leg_pnl price leg spot).isSome ∧
    (total_pnl price legs spot).isSome ∧
    (∀ y ∈ (computeCurve legs spot lowF highF n).2, y.isSome) ∧
    (summaryMetrics prices pnls atol).maxProfit.isSome ∧
    (summaryMetrics prices pnls atol).maxLoss.isSome := by
  refine ⟨leg_pnl_isSome_of_valid price spot leg h1,
    total_pnl_isSome_of_valid price spot legs h2, ?_, ?_, ?_⟩
  · intro y hy
    simp only [computeCurve, List.mem_map] at hy
    obtain ⟨p, _, rfl⟩ := hy
    exact total_pnl_isSome_of_valid p spot legs h2
  · cases pnls with
    | nil => exact absurd rfl h3
    | cons x xs => simp [summaryMetrics, np_max]
  · cases pnls with
    | nil => exact absurd rfl h3
    | cons x xs => simp [summaryMetrics, np_min]

/-- Witness for C9: a long Call leg and a one-leg strategy, with a one-point
curve. -/
theorem claim_C9_witness :
    ValidLeg (⟨"Call Option", "Buy (Long)", some 100, some 5, 1⟩ : Leg) ∧
    (∀ l ∈ [(⟨"Call Option", "Buy (Long)", some 100, some 5, 1⟩ : Leg)], ValidLeg l) ∧
    ([(0 : ℚ)] ≠ []) ∧
    ((leg_pnl 7 (⟨"Call Option", "Buy (Long)", some 100, some 5, 1⟩ : Leg) 100).isSome ∧
      (total_pnl 7 [(⟨"Call Option", "Buy (Long)", some 100, some 5, 1⟩ : Leg)] 100).isSome ∧
      (∀ y ∈ (computeCurve [(⟨"Call Option", "Buy (Long)", some 100, some 5, 1⟩ : Leg)]
          100 (1 / 2) (3 / 2) 2).2, y.isSome) ∧
      (summaryMetrics [(3 : ℚ)] [(0 : ℚ)] 5).maxProfit.isSome ∧
      (summaryMetrics [(3 : ℚ)] [(0 : ℚ)] 5).maxLoss.isSome) :=
  ⟨by decide, by decide, by decide,
    claim_C9 7 100 (1 / 2) (3 / 2) 5 2 _ _ [(3 : ℚ)] [(0 : ℚ)]
      (by decide) (by decide) (by decide)⟩

end PayoffBuilder


namespace PayoffBuilder

/-- `linspace` always returns exactly `num` samples. -/
theorem linspace_length (a b : ℚ) (n : ℕ) : (linspace a b n).length = n := by
  by_cases h : n = 1
  · simp [linspace, h]
  · simp [linspace, h]

/-- Closed form of the `i`-th sample of `linspace` for `num ≥ 2`. -/
theorem linspace_get (a b : ℚ) (n : ℕ) (hn : 2 ≤ n) (i : ℕ)
    (h : i < (linspace a b n).length) :
    (linspace a b n).get ⟨i, h⟩ = a + (i : ℚ) * (b - a) / ((n : ℚ) - 1) := by
  have hne : n ≠ 1 := by omega
  simp only [linspace, if_neg hne, List.get_eq_getElem, List.getElem_map, List.getElem_range]

end PayoffBuilder

namespace PayoffBuilder

/-- C5 counterexample: at `samples = 1` (spot 100, factors 1/2 and 3/2) the
curve is the single price 50, so the upper endpoint 150 of the closed sweep
interval is not included, contradicting the claim for every `samples`. -/
theorem claim_C5_counterexample :
    (computeCurve ([] : List Leg) 100 (1 / 2) (3 / 2) 1).1 = [50] ∧
    (100 : ℚ) * (3 / 2) = 150 ∧
    (150 : ℚ) ∉ (computeCurve ([] : List Leg) 100 (1 / 2) (3 / 2) 1).1 := by
  have h1 : (computeCurve ([] : List Leg) 100 (1 / 2) (3 / 2) 1).1 = [50] := by
    norm_num [computeCurve, linspace]
  refine ⟨h1, by norm_num, ?_⟩
  rw [h1]
  norm_num

/-- C5 (amended to `samples ≥ 2`): the curve has exactly `samples` prices, the
first is `spot * lowFactor`, the last is `spot * highFactor`, consecutive
prices differ by `(highFactor - lowFactor) * spot / (samples - 1)` (so for
samples = 300 the spacing divides by 299), and when the sweep is nondegenerate
every price lies in the closed interval. -/
theorem claim_C5 (spot lowF highF : ℚ) (n : ℕ) (legs : List Leg) (hn : 2 ≤ n) :
    (computeCurve legs spot lowF highF n).1.length = n ∧
    (computeCurve legs spot lowF highF n).1.head? = some (spot * lowF) ∧
    (computeCurve legs spot lowF highF n).1.getLast? = some (spot * highF) ∧
    (∀ i : ℕ, ∀ h : i + 1 < (computeCurve legs spot lowF highF n).1.length,
      (computeCurve legs spot lowF highF n).1.get ⟨i + 1, h⟩ -
          (computeCurve legs spot lowF highF n).1.get ⟨i, Nat.lt_of_succ_lt h⟩
        = (highF - lowF) * spot / ((n : ℚ) - 1)) ∧
    (spot * lowF ≤ spot * highF →
      ∀ p ∈ (computeCurve legs spot lowF highF n).1,
        spot * lowF ≤ p ∧ p ≤ spot * highF) := by
  have hn1 : (0 : ℚ) < (n : ℚ) - 1 := by
    have h2 : (2 : ℚ) ≤ (n : ℚ) := by exact_mod_cast hn
    linarith
  have hlen : (linspace (spot * lowF) (spot * highF) n).length = n := linspace_length _ _ n
  refine ⟨hlen, ?_, ?_, ?_, ?_⟩
  · show (linspace (spot * lowF) (spot * highF) n).head? = some (spot * lowF)
    have h0 : 0 < (linspace (spot * lowF) (spot * highF) n).length := by omega
    rw [List.head?_eq_getElem?, List.getElem?_eq_getElem h0]
    have := linspace_get (spot * lowF) (spot * highF) n hn 0 h0
    simp only [List.get_eq_getElem] at this
    rw [this]
    norm_num
  · show (linspace (spot * lowF) (spot * highF) n).getLast? = some (spot * highF)
    have hlt : (linspace (spot * lowF) (spot * highF) n).length - 1
        < (linspace (spot * lowF) (spot * highF) n).length := by omega
    rw [List.getLast?_eq_getElem?, List.getElem?_eq_getElem hlt]
    have := linspace_get (spot * lowF) (spot * highF) n hn _ hlt
    simp only [List.get_eq_getElem] at this
    rw [this]
    have hcast : (((linspace (spot * lowF) (spot * highF) n).length - 1 : ℕ) : ℚ)
        = (n : ℚ) - 1 := by
      rw [hlen]
      have h1n : 1 ≤ n := by omega
      push_cast [h1n]
      ring
    rw [hcast, mul_div_cancel_left₀ _ (ne_of_gt hn1)]
    simp only [Option.some.injEq]
    ring
  · intro i h
    show (linspace (spot * lowF) (spot * highF) n).get ⟨i + 1, h⟩ -
        (linspace (spot * lowF) (spot * highF) n).get ⟨i, Nat.lt_of_succ_lt h⟩
      = (highF - lowF) * spot / ((n : ℚ) - 1)
    rw [linspace_get (spot * lowF) (spot * highF) n hn (i + 1) h,
      linspace_get (spot * lowF) (spot * highF) n hn i (Nat.lt_of_succ_lt h)]
    have hne : ((n : ℚ) - 1) ≠ 0 := ne_of_gt hn1
    push_cast
    field_simp
    ring
  · intro hab p hp
    have hp2 : p ∈ linspace (spot * lowF) (spot * highF) n := hp
    rw [List.mem_iff_get] at hp2
    obtain ⟨⟨i, hi⟩, rfl⟩ := hp2
    rw [linspace_get (spot * lowF) (spot * highF) n hn i hi]
    have hba : (0 : ℚ) ≤ spot * highF - spot * lowF := by linarith
    have hia : (0 : ℚ) ≤ (i : ℚ) := Nat.cast_nonneg i
    have hin : (i : ℚ) ≤ (n : ℚ) - 1 := by
      have h1 : i + 1 ≤ n := by
        rw [hlen] at hi
        omega
      have h2 : ((i : ℚ) + 1) ≤ (n : ℚ) := by exact_mod_cast h1
      linarith
    constructor
    · have hpos : (0 : ℚ) ≤ (i : ℚ) * (spot * highF - spot * lowF) / ((n : ℚ) - 1) :=
        div_nonneg (mul_nonneg hia hba) (le_of_lt hn1)
      linarith
    · have hmul : (i : ℚ) * (spot * highF - spot * lowF)
          ≤ ((n : ℚ) - 1) * (spot * highF - spot * lowF) :=
        mul_le_mul_of_nonneg_right hin hba
      have hdiv : (i : ℚ) * (spot * highF - spot * lowF) / ((n : ℚ) - 1)
          ≤ spot * highF - spot * lowF := by
        rw [div_le_iff hn1]
        linarith
      linarith

end PayoffBuilder

namespace PayoffBuilder

/-- `foldl max` computes an upper bound that is the seed or an element. -/
theorem foldl_max_spec (xs : List ℚ) : ∀ x : ℚ,
    (xs.foldl max x = x ∨ xs.foldl max x ∈ xs) ∧ x ≤ xs.foldl max x ∧
    ∀ y ∈ xs, y ≤ xs.foldl max x := by
  induction xs with
  | nil => intro x; simp
  | cons a as ih =>
    intro x
    simp only [List.foldl_cons]
    obtain ⟨hmem, hle, hall⟩ := ih (max x a)
    refine ⟨?_, le_trans (le_max_left x a) hle, ?_⟩
    · rcases hmem with he | hm
      · rcases max_choice x a with hx | ha
        · left; rw [he, hx]
        · right; rw [he, ha]; exact List.mem_cons_self a as
      · right; exact List.mem_cons_of_mem a hm
    · intro y hy
      rcases List.mem_cons.mp hy with rfl | hys
      · exact le_trans (le_max_right x y) hle
      · exact hall y hys

/-- `foldl min` computes a lower bound that is the seed or an element. -/
theorem foldl_min_spec (xs : List ℚ) : ∀ x : ℚ,
    (xs.foldl min x = x ∨ xs.foldl min x ∈ xs) ∧ xs.foldl min x ≤ x ∧
    ∀ y ∈ xs, xs.foldl min x ≤ y := by
  induction xs with
  | nil => intro x; simp
  | cons a as ih =>
    intro x
    simp only [List.foldl_cons]
    obtain ⟨hmem, hle, hall⟩ := ih (min x a)
    refine ⟨?_, le_trans hle (min_le_left x a), ?_⟩
    · rcases hmem with he | hm
      · rcases min_choice x a with hx | ha
        · left; rw [he, hx]
        · right; rw [he, ha]; exact List.mem_cons_self a as
      · right; exact List.mem_cons_of_mem a hm
    · intro y hy
      rcases List.mem_cons.mp hy with rfl | hys
      · exact le_trans hle (min_le_right x y)
      · exact hall y hys

/-- The breakeven list is a sublist of the price list (mask indexing). -/
theorem breakevens_sublist (prices : List ℚ) : ∀ (pnls : List ℚ) (atol : ℚ),
    (breakevens prices pnls atol).Sublist prices := by
  induction prices with
  | nil => intro pnls atol; simp [breakevens]
  | cons p ps ih =>
    intro pnls atol
    cases pnls with
    | nil => simp [breakevens]
    | cons q qs =>
      simp only [breakevens, List.zip_cons_cons, List.filterMap_cons]
      by_cases hq : np_isclose q 0 (1 / 100000) atol
      · rw [if_pos hq]
        exact (ih qs atol).cons₂ p
      · rw [if_neg hq]
        exact (ih qs atol).cons p

/-- Membership in the breakeven list: exactly the prices whose pnl at the same
index lies within the band. -/
theorem breakevens_mem (prices pnls : List ℚ) (atol p : ℚ) :
    p ∈ breakevens prices pnls atol ↔
      ∃ i, ∃ hi : i < prices.length, ∃ hj : i < pnls.length,
        prices.get ⟨i, hi⟩ = p ∧ |pnls.get ⟨i, hj⟩| ≤ atol := by
  rw [breakevens, List.mem_filterMap]
  constructor
  · rintro ⟨⟨pp1, pp2⟩, hmem, hf⟩
    by_cases hc : np_isclose pp2 0 (1 / 100000) atol
    · rw [if_pos hc] at hf
      have hp : pp1 = p := by injection hf
      subst hp
      rw [List.mem_iff_get] at hmem
      obtain ⟨⟨i, hi⟩, hget⟩ := hmem
      have hlen := hi
      rw [List.length_zip] at hlen
      have hi1 : i < prices.length := lt_of_lt_of_le hlen (min_le_left _ _)
      have hi2 : i < pnls.length := lt_of_lt_of_le hlen (min_le_right _ _)
      simp only [List.get_eq_getElem, List.getElem_zip, Prod.mk.injEq] at hget
      obtain ⟨hg1, hg2⟩ := hget
      refine ⟨i, hi1, hi2, ?_, ?_⟩
      · simpa [List.get_eq_getElem] using hg1
      · have hc2 : |pp2| ≤ atol := by
          simpa [np_isclose] using hc
        rw [List.get_eq_getElem]
        rw [hg2]
        exact hc2
    · rw [if_neg hc] at hf
      exact absurd hf (by simp)
  · rintro ⟨i, hi, hj, hp, habs⟩
    refine ⟨(prices.get ⟨i, hi⟩, pnls.get ⟨i, hj⟩), ?_, ?_⟩
    · rw [List.mem_iff_get]
      have hz : i < (prices.zip pnls).length := by
        rw [List.length_zip]
        exact lt_min hi hj
      exact ⟨⟨i, hz⟩, by simp only [List.get_eq_getElem, List.getElem_zip]⟩
    · have hcl : np_isclose (pnls.get ⟨i, hj⟩) 0 (1 / 100000) atol = true := by
        simpa [np_isclose] using habs
      rw [hcl]
      simpa using hp

end PayoffBuilder

namespace PayoffBuilder

/-- Witness for C5 at spot 100, factors 1/2 and 3/2, samples 3. -/
theorem claim_C5_witness :
    2 ≤ 3 ∧
    ((computeCurve ([] : List Leg) 100 (1 / 2) (3 / 2) 3).1.length = 3 ∧
      (computeCurve ([] : List Leg) 100 (1 / 2) (3 / 2) 3).1.head? = some (100 * (1 / 2)) ∧
      (computeCurve ([] : List Leg) 100 (1 / 2) (3 / 2) 3).1.getLast? = some (100 * (3 / 2)) ∧
      (∀ i : ℕ, ∀ h : i + 1 < (computeCurve ([] : List Leg) 100 (1 / 2) (3 / 2) 3).1.length,
        (computeCurve ([] : List Leg) 100 (1 / 2) (3 / 2) 3).1.get ⟨i + 1, h⟩ -
            (computeCurve ([] : List Leg) 100 (1 / 2) (3 / 2) 3).1.get ⟨i, Nat.lt_of_succ_lt h⟩
          = ((3 / 2 : ℚ) - 1 / 2) * 100 / (((3 : ℕ) : ℚ) - 1)) ∧
      ((100 : ℚ) * (1 / 2) ≤ 100 * (3 / 2) →
        ∀ p ∈ (computeCurve ([] : List Leg) 100 (1 / 2) (3 / 2) 3).1,
          (100 : ℚ) * (1 / 2) ≤ p ∧ p ≤ 100 * (3 / 2))) :=
  ⟨by norm_num, claim_C5 100 (1 / 2) (3 / 2) 3 [] (by norm_num)⟩

/-- C6 counterexample: for pnls = [1/8] the code reports
`round(np.max(pnls), 2) = 0.12`, not the maximum 1/8 = 0.125 itself. -/
theorem claim_C6_counterexample :
    np_max [(1 / 8 : ℚ)] = some (1 / 8) ∧
    (summaryMetrics [100] [(1 / 8 : ℚ)] 5).maxProfit = some (3 / 25) ∧
    (3 / 25 : ℚ) ≠ 1 / 8 := by
  refine ⟨rfl, ?_, by norm_num⟩
  show some (round2 (1 / 8)) = some (3 / 25)
  have h1 : ((1 / 8 : ℚ) * 100) = 25 / 2 := by norm_num
  have hf : ⌊(25 / 2 : ℚ)⌋ = 12 := by
    rw [Int.floor_eq_iff] <;> norm_num
  have h2 : round_half_even (25 / 2 : ℚ) = 12 := by
    rw [round_half_even, hf]
    norm_num
  rw [round2, h1, h2]
  norm_num

/-- C6 (amended): `maxProfit` and `maxLoss` are the maximum and minimum of the
pnls rounded to two decimal places (Python `round`, ties to even) — not the
raw extrema — and the breakeven list is exactly the prices whose
same-index pnl lies within `tolerance` of zero, in ascending order when the
prices are ascending. -/
theorem claim_C6 (prices pnls : List ℚ) (atol : ℚ)
    (hlen : prices.length = pnls.length) (hne : pnls ≠ [])
    (hsort : prices.Sorted (· ≤ ·)) :
    (∃ m, m ∈ pnls ∧ (∀ y ∈ pnls, y ≤ m) ∧
      (summaryMetrics prices pnls atol).maxProfit = some (round2 m)) ∧
    (∃ m, m ∈ pnls ∧ (∀ y ∈ pnls, m ≤ y) ∧
      (summaryMetrics prices pnls atol).maxLoss = some (round2 m)) ∧
    (summaryMetrics prices pnls atol).breakevenList.Sorted (· ≤ ·) ∧
    (∀ p, p ∈ (summaryMetrics prices pnls atol).breakevenList ↔
      ∃ i, ∃ hi : i < prices.length, ∃ hj : i < pnls.length,
        prices.get ⟨i, hi⟩ = p ∧ |pnls.get ⟨i, hj⟩| ≤ atol) := by
  refine ⟨?_, ?_, ?_, ?_⟩
  · cases pnls with
    | nil => exact absurd rfl hne
    | cons x xs =>
      obtain ⟨hmem, hle, hall⟩ := foldl_max_spec xs x
      refine ⟨xs.foldl max x, ?_, ?_, rfl⟩
      · rcases hmem with he | hm
        · rw [he]; exact List.mem_cons_self x xs
        · exact List.mem_cons_of_mem x hm
      · intro y hy
        rcases List.mem_cons.mp hy with rfl | hys
        · exact hle
        · exact hall y hys
  · cases pnls with
    | nil => exact absurd rfl hne
    | cons x xs =>
      obtain ⟨hmem, hle, hall⟩ := foldl_min_spec xs x
      refine ⟨xs.foldl min x, ?_, ?_, rfl⟩
      · rcases hmem with he | hm
        · rw [he]; exact List.mem_cons_self x xs
        · exact List.mem_cons_of_mem x hm
      · intro y hy
        rcases List.mem_cons.mp hy with rfl | hys
        · exact hle
        · exact hall y hys
  · exact List.Pairwise.sublist (breakevens_sublist prices pnls atol) hsort
  · intro p
    exact breakevens_mem prices pnls atol p

/-- Witness for C6 on prices [1, 2], pnls [3, -4], tolerance 5. -/
theorem claim_C6_witness :
    ([(1 : ℚ), 2].length = [(3 : ℚ), -4].length) ∧ ([(3 : ℚ), -4] ≠ []) ∧
    ([(1 : ℚ), 2].Sorted (· ≤ ·)) ∧
    ((∃ m, m ∈ [(3 : ℚ), -4] ∧ (∀ y ∈ [(3 : ℚ), -4], y ≤ m) ∧
        (summaryMetrics [1, 2] [(3 : ℚ), -4] 5).maxProfit = some (round2 m)) ∧
      (∃ m, m ∈ [(3 : ℚ), -4] ∧ (∀ y ∈ [(3 : ℚ), -4], m ≤ y) ∧
        (summaryMetrics [1, 2] [(3 : ℚ), -4] 5).maxLoss = some (round2 m)) ∧
      (summaryMetrics [1, 2] [(3 : ℚ), -4] 5).breakevenList.Sorted (· ≤ ·) ∧
      (∀ p, p ∈ (summaryMetrics [1, 2] [(3 : ℚ), -4] 5).breakevenList ↔
        ∃ i, ∃ hi : i < ([(1 : ℚ), 2]).length, ∃ hj : i < ([(3 : ℚ), -4]).length,
          ([(1 : ℚ), 2]).get ⟨i, hi⟩ = p ∧ |([(3 : ℚ), -4]).get ⟨i, hj⟩| ≤ 5)) :=
  ⟨rfl, by simp, by simp [List.Sorted], by
    exact claim_C6 [1, 2] [(3 : ℚ), -4] 5 rfl (by simp) (by simp [List.Sorted])⟩

end PayoffBuilder

namespace PayoffBuilder

/-- `np.max` of a list equals any element that bounds the whole list. -/
theorem np_max_eq (l : List ℚ) (x : ℚ) (hx : x ∈ l) (hb : ∀ y ∈ l, y ≤ x) :
    np_max l = some x := by
  cases l with
  | nil => exact absurd hx (List.not_mem_nil x)
  | cons a as =>
    obtain ⟨hmem, hle, hall⟩ := foldl_max_spec as a
    have hm : as.foldl max a ∈ a :: as := by
      rcases hmem with he | hm
      · rw [he]; exact List.mem_cons_self a as
      · exact List.mem_cons_of_mem a hm
    have h1 : as.foldl max a ≤ x := hb _ hm
    have h2 : x ≤ as.foldl max a := by
      rcases List.mem_cons.mp hx with rfl | hxs
      · exact hle
      · exact hall x hxs
    rw [np_max]
    exact congrArg some (le_antisymm h1 h2)

/-- `np.min` of a list equals any element that the whole list bounds. -/
theorem np_min_eq (l : List ℚ) (x : ℚ) (hx : x ∈ l) (hb : ∀ y ∈ l, x ≤ y) :
    np_min l = some x := by
  cases l with
  | nil => exact absurd hx (List.not_mem_nil x)
  | cons a as =>
    obtain ⟨hmem, hle, hall⟩ := foldl_min_spec as a
    have hm : as.foldl min a ∈ a :: as := by
      rcases hmem with he | hm
      · rw [he]; exact List.mem_cons_self a as
      · exact List.mem_cons_of_mem a hm
    have h1 : x ≤ as.foldl min a := hb _ hm
    have h2 : as.foldl min a ≤ x := by
      rcases List.mem_cons.mp hx with rfl | hxs
      · exact hle
      · exact hall x hxs
    rw [np_min]
    exact congrArg some (le_antisymm h2 h1)

/-- Scenario 4 of the spec: bull call spread, long Call strike 100 premium 5
lot 1 plus short Call strike 110 premium 2 lot 1. -/
def bullCallSpread : List Leg :=
  [⟨"Call Option", "Buy (Long)", some 100, some 5, 1⟩,
   ⟨"Call Option", "Sell (Short)", some 110, some 2, 1⟩]

/-- The price sweep of scenario 4: spot 100, so prices from 50 to 150. -/
def scenario4_prices : List ℚ := price_range 100

/-- The pnl curve of scenario 4 (every leg evaluates, so nothing is dropped). -/
def scenario4_pnls : List ℚ :=
  scenario4_prices.filterMap (fun p => total_pnl p bullCallSpread 100)

/-- Closed form of the bull-call-spread payoff. -/
def scenario4_f (p : ℚ) : ℚ :=
  max (p - 100) 0 - 5 - (max (p - 110) 0 - 2)

theorem scenario4_total (p : ℚ) :
    total_pnl p bullCallSpread 100 = some (scenario4_f p) := by
  have hBL : ("Buy (Long)" : String) ≠ "Sell (Short)" := by decide
  simp only [total_pnl, bullCallSpread, List.foldl_cons, List.foldl_nil]
  simp [leg_pnl, call_payoff, hBL, scenario4_f]
  ring

theorem scenario4_pnls_eq : scenario4_pnls = scenario4_prices.map scenario4_f := by
  rw [scenario4_pnls]
  have h : (fun p => total_pnl p bullCallSpread 100) = fun p => some (scenario4_f p) :=
    funext scenario4_total
  rw [h]
  induction scenario4_prices with
  | nil => rfl
  | cons a as ih => simp [List.filterMap_cons, ih]

theorem scenario4_f_high (p : ℚ) (h : 110 ≤ p) : scenario4_f p = 7 := by
  rw [scenario4_f, max_eq_left (by linarith), max_eq_left (by linarith)]
  ring

theorem scenario4_f_low (p : ℚ) (h : p ≤ 100) : scenario4_f p = -3 := by
  rw [scenario4_f, max_eq_right (by linarith), max_eq_right (by linarith)]
  ring

theorem scenario4_f_mid (p : ℚ) (h1 : 100 ≤ p) (h2 : p ≤ 110) : scenario4_f p = p - 103 := by
  rw [scenario4_f, max_eq_left (by linarith), max_eq_right (by linarith)]
  ring

theorem scenario4_f_bounds (p : ℚ) : -3 ≤ scenario4_f p ∧ scenario4_f p ≤ 7 := by
  rcases le_or_lt p 100 with h | h
  · rw [scenario4_f_low p h]; norm_num
  · rcases le_or_lt p 110 with h2 | h2
    · rw [scenario4_f_mid p (le_of_lt h) h2]
      constructor <;> linarith
    · rw [scenario4_f_high p (le_of_lt h2)]; norm_num

theorem scenario4_band (p : ℚ) : |scenario4_f p| ≤ 5 ↔ p ≤ 108 := by
  rw [abs_le]
  constructor
  · rintro ⟨h1, h2⟩
    by_contra hgt
    push_neg at hgt
    rcases le_or_lt 110 p with hp | hp
    · rw [scenario4_f_high p hp] at h2; linarith
    · rw [scenario4_f_mid p (by linarith) (le_of_lt hp)] at h2; linarith
  · intro h
    rcases le_or_lt p 100 with h1 | h1
    · rw [scenario4_f_low p h1]; norm_num
    · rw [scenario4_f_mid p (le_of_lt h1) (by linarith)]
      constructor <;> linarith

end PayoffBuilder

namespace PayoffBuilder

theorem scenario4_prices_length : scenario4_prices.length = 300 :=
  linspace_length (100 * (1 / 2)) (100 * (3 / 2)) 300

theorem scenario4_prices_get (i : ℕ) (hi : i < scenario4_prices.length) :
    scenario4_prices.get ⟨i, hi⟩
      = 100 * (1 / 2) + (i : ℚ) * (100 * (3 / 2) - 100 * (1 / 2)) / ((300 : ℚ) - 1) :=
  linspace_get (100 * (1 / 2)) (100 * (3 / 2)) 300 (by norm_num) i hi

theorem scenario4_pnls_get (i : ℕ) (hj : i < scenario4_pnls.length)
    (hi : i < scenario4_prices.length) :
    scenario4_pnls.get ⟨i, hj⟩ = scenario4_f (scenario4_prices.get ⟨i, hi⟩) := by
  simp only [List.get_eq_getElem]
  rw [List.getElem_of_eq scenario4_pnls_eq hj, List.getElem_map]

theorem round2_seven : round2 7 = 7 := by
  have h1 : round_half_even (700 : ℚ) = 700 := by
    rw [round_half_even]
    norm_num
  rw [round2, show ((7 : ℚ) * 100) = 700 from by norm_num, h1]
  norm_num

theorem round2_neg_three : round2 (-3) = -3 := by
  have h1 : round_half_even (-300 : ℚ) = -300 := by
    rw [round_half_even]
    norm_num
  rw [round2, show ((-3 : ℚ) * 100) = -300 from by norm_num, h1]
  norm_num

theorem scenario4_np_max : np_max scenario4_pnls = some 7 := by
  apply np_max_eq
  · rw [scenario4_pnls_eq, List.mem_map]
    have h180 : (180 : ℕ) < scenario4_prices.length := by
      rw [scenario4_prices_length]; norm_num
    refine ⟨scenario4_prices.get ⟨180, h180⟩, List.get_mem _ _ _, ?_⟩
    apply scenario4_f_high
    rw [scenario4_prices_get 180 h180]
    norm_num
  · intro y hy
    rw [scenario4_pnls_eq, List.mem_map] at hy
    obtain ⟨p, _, rfl⟩ := hy
    exact (scenario4_f_bounds p).2

theorem scenario4_np_min : np_min scenario4_pnls = some (-3) := by
  apply np_min_eq
  · rw [scenario4_pnls_eq, List.mem_map]
    have h0 : (0 : ℕ) < scenario4_prices.length := by
      rw [scenario4_prices_length]; norm_num
    refine ⟨scenario4_prices.get ⟨0, h0⟩, List.get_mem _ _ _, ?_⟩
    apply scenario4_f_low
    rw [scenario4_prices_get 0 h0]
    norm_num
  · intro y hy
    rw [scenario4_pnls_eq, List.mem_map] at hy
    obtain ⟨p, _, rfl⟩ := hy
    exact (scenario4_f_bounds p).1

end PayoffBuilder

namespace PayoffBuilder

/-- C8 counterexample: for the bull call spread over the 50-150 sweep the
breakeven band of tolerance 5 contains (at least) the two distinct sampled
prices 50 and 15050/299, so the metrics do not report exactly one breakeven. -/
theorem claim_C8_counterexample :
    (50 : ℚ) ∈ (summaryMetrics scenario4_prices scenario4_pnls 5).breakevenList ∧
    (15050 / 299 : ℚ) ∈ (summaryMetrics scenario4_prices scenario4_pnls 5).breakevenList ∧
    (50 : ℚ) ≠ 15050 / 299 ∧
    (summaryMetrics scenario4_prices scenario4_pnls 5).breakevenList.length ≠ 1 := by
  have hlen : scenario4_pnls.length = 300 := by
    rw [scenario4_pnls_eq, List.length_map, scenario4_prices_length]
  have hmem : ∀ (i : ℕ) (hip : i < scenario4_prices.length),
      scenario4_prices.get ⟨i, hip⟩ ≤ 100 →
      scenario4_prices.get ⟨i, hip⟩
        ∈ (summaryMetrics scenario4_prices scenario4_pnls 5).breakevenList := by
    intro i hip hle
    have hjp : i < scenario4_pnls.length := by
      rw [hlen]
      rw [scenario4_prices_length] at hip
      omega
    show _ ∈ breakevens scenario4_prices scenario4_pnls 5
    rw [breakevens_mem]
    refine ⟨i, hip, hjp, rfl, ?_⟩
    rw [scenario4_pnls_get i hjp hip, scenario4_f_low _ hle]
    norm_num
  have h0p : (0 : ℕ) < scenario4_prices.length := by rw [scenario4_prices_length]; norm_num
  have h1p : (1 : ℕ) < scenario4_prices.length := by rw [scenario4_prices_length]; norm_num
  have hv0 : scenario4_prices.get ⟨0, h0p⟩ = 50 := by
    rw [scenario4_prices_get 0 h0p]; norm_num
  have hv1 : scenario4_prices.get ⟨1, h1p⟩ = 15050 / 299 := by
    rw [scenario4_prices_get 1 h1p]; norm_num
  have hm0 : (50 : ℚ) ∈ (summaryMetrics scenario4_prices scenario4_pnls 5).breakevenList := by
    have := hmem 0 h0p (by rw [hv0]; norm_num)
    rwa [hv0] at this
  have hm1 : (15050 / 299 : ℚ)
      ∈ (summaryMetrics scenario4_prices scenario4_pnls 5).breakevenList := by
    have := hmem 1 h1p (by rw [hv1]; norm_num)
    rwa [hv1] at this
  have hne : (50 : ℚ) ≠ 15050 / 299 := by norm_num
  refine ⟨hm0, hm1, hne, ?_⟩
  intro hone
  obtain ⟨a, ha⟩ := List.length_eq_one.mp hone
  rw [ha, List.mem_singleton] at hm0 hm1
  exact hne (hm0.trans hm1.symm)

/-- C8 (amended): for the bull call spread over the 50-150 sweep the metrics
report max profit 7 (the pnl at every sampled price at or above 110) and max
loss -3 (the pnl at every sampled price at or below 100), but the breakeven
band of tolerance 5 contains every sampled price at or below 108 (the true
zero crossing 103 lies inside this band) — not exactly one price. -/
theorem claim_C8 :
    (summaryMetrics scenario4_prices scenario4_pnls 5).maxProfit = some 7 ∧
    (summaryMetrics scenario4_prices scenario4_pnls 5).maxLoss = some (-3) ∧
    (∀ p ∈ scenario4_prices, 110 ≤ p → total_pnl p bullCallSpread 100 = some 7) ∧
    (∀ p ∈ scenario4_prices, p ≤ 100 → total_pnl p bullCallSpread 100 = some (-3)) ∧
    (∀ p : ℚ, p ∈ (summaryMetrics scenario4_prices scenario4_pnls 5).breakevenList ↔
      p ∈ scenario4_prices ∧ p ≤ 108) := by
  refine ⟨?_, ?_, ?_, ?_, ?_⟩
  · show (np_max scenario4_pnls).map round2 = some 7
    rw [scenario4_np_max]
    show some (round2 7) = some 7
    rw [round2_seven]
  · show (np_min scenario4_pnls).map round2 = some (-3)
    rw [scenario4_np_min]
    show some (round2 (-3)) = some (-3)
    rw [round2_neg_three]
  · intro p _ h
    rw [scenario4_total p, scenario4_f_high p h]
  · intro p _ h
    rw [scenario4_total p, scenario4_f_low p h]
  · intro p
    show p ∈ breakevens scenario4_prices scenario4_pnls 5 ↔ _
    rw [breakevens_mem]
    constructor
    · rintro ⟨i, hi, hj, rfl, habs⟩
      rw [scenario4_pnls_get i hj hi, scenario4_band] at habs
      exact ⟨List.get_mem _ _ _, habs⟩
    · rintro ⟨hp, hle⟩
      rw [List.mem_iff_get] at hp
      obtain ⟨⟨i, hi⟩, rfl⟩ := hp
      have hj : i < scenario4_pnls.length := by
        rw [scenario4_pnls_eq, List.length_map]; exact hi
      refine ⟨i, hi, hj, rfl, ?_⟩
      rw [scenario4_pnls_get i hj hi, scenario4_band]
      exact hle

end PayoffBuilder
